import Mathlib

/-!
Verification of the klantroef media API core: view logging, analytics
aggregation, signed stream-link issuance/redemption, and the JWT
authentication middleware.

The definitions below are a shallow embedding of the JavaScript sources:
`src/routes/media.js` (handlers for POST /:id/view, GET /:id/analytics,
GET /:id/stream-url, GET /stream/:token), `src/middleware/auth.js`
(authenticateToken), and `src/server.js` (GET /stream/:token).
Timestamps and token times are naturals (seconds since the Unix epoch);
the MongoDB stores are lists; a signed JWT is a record carrying the
secret it was signed with, so signature verification is comparison with
the secret of the verifier; a fallible database save is an explicit `saveOk`
flag, the `catch` branch of each handler firing when it is `false`.
-/

namespace Klantroef

/-- A hexadecimal digit, as accepted in a MongoDB ObjectId string. -/
def isHexDigit (c : Char) : Bool :=
  c.isDigit || (('a' ≤ c && c ≤ 'f') || ('A' ≤ c && c ≤ 'F'))

/-- Models `mongoose.Types.ObjectId.isValid(id)` on its string input:
a 24-character hex string is a well-formed ObjectId. -/
def isValidObjectId (s : String) : Bool :=
  s.length == 24 && s.data.all isHexDigit

/-- Asset metadata, the MediaAsset document (`src/routes/media.js` creates
them from `{title, type, file_url}`; Mongo assigns `_id`). -/
structure MediaAsset where
  _id : String
  title : String
  type : String
  file_url : String
deriving DecidableEq

/-- One view event, the MediaViewLog document
`{media_id, viewed_by_ip, timestamp}`. -/
structure ViewLogEntry where
  media_id : String
  viewed_by_ip : String
  timestamp : Nat
deriving DecidableEq

/-- Models `MediaAsset.findById(id)`: the stored asset whose `_id` is `id`. -/
def findById (assets : List MediaAsset) (id : String) : Option MediaAsset :=
  assets.find? (fun m => m._id == id)

/-- Modelled from the spec: the MediaViewLog schema file
(`src/models/MediaViewLog.js`) is absent from the sources; the spec gives
`ViewLogEntry: {media_id: AssetId, viewed_by_ip: string, timestamp: instant}`,
so a save that omits `timestamp` (the stream-url handler, media.js line 55)
still records the current instant as the timestamp of the entry. -/
def mediaViewLogCreate (media_id ip : String) (now : Nat) : ViewLogEntry :=
  ⟨media_id, ip, now⟩

/-- The UTC calendar day of an epoch-seconds timestamp. Models the grouping
key `log.timestamp.toISOString().slice(0, 10)` of media.js line 146:
`toISOString` renders UTC, and day number `ts / 86400` corresponds
one-to-one with the `YYYY-MM-DD` prefix for epoch-based timestamps. -/
def dayOf (ts : Nat) : Nat := ts / 86400

/-- One iteration of the `logs.forEach` loop of media.js lines 144-149:
`views_per_day[day] = (views_per_day[day] || 0) + 1` increments the
existing entry for `day` in place, or appends a new key with count 1
(JS objects keep string keys in insertion order). -/
def viewsPerDayStep (acc : List (Nat × Nat)) (log : ViewLogEntry) : List (Nat × Nat) :=
  match acc.find? (fun p => p.1 == dayOf log.timestamp) with
  | some _ => acc.map (fun p => if p.1 == dayOf log.timestamp then (p.1, p.2 + 1) else p)
  | none => acc ++ [(dayOf log.timestamp, 1)]

/-- The `views_per_day` object built by media.js lines 143-149. -/
def views_per_day (logs : List ViewLogEntry) : List (Nat × Nat) :=
  logs.foldl viewsPerDayStep []

/-- The analytics summary `{total_views, unique_ips, views_per_day}`
returned by GET /:id/analytics. -/
structure AnalyticsSummary where
  total_views : Nat
  unique_ips : Nat
  views_per_day : List (Nat × Nat)
deriving DecidableEq

/-- Responses of GET /:id/analytics: 400, 404, or 200 with a summary. -/
inductive AnalyticsResult
  | invalidId
  | notFound
  | ok (summary : AnalyticsSummary)
deriving DecidableEq

/-- The GET /:id/analytics handler, media.js lines 112-156 (after the
authentication middleware): validate the id, check the asset exists,
fetch the logs of this asset, and aggregate. `unique_ips` models
`new Set(logs.map(log => log.viewed_by_ip)).size`, the number of
distinct IPs among the rows. -/
def getAnalytics (assets : List MediaAsset) (logs : List ViewLogEntry)
    (id : String) : AnalyticsResult :=
  if !isValidObjectId id then .invalidId
  else
    match findById assets id with
    | none => .notFound
    | some _ =>
      let ls := logs.filter (fun log => log.media_id == id)
      .ok ⟨ls.length, (ls.map (fun log => log.viewed_by_ip)).toFinset.card,
           views_per_day ls⟩

/-- A signed stream token: the payload `{mediaId, fileUrl}` of media.js
line 54 plus the `iat`/`exp` claims jsonwebtoken adds, and the secret the
token was signed with (standing in for the HMAC signature). -/
structure StreamToken where
  mediaId : String
  fileUrl : String
  iat : Nat
  exp : Nat
  signedWith : String
deriving DecidableEq

/-- Ten minutes, the expiresIn policy of media.js line 54, in seconds. -/
def streamTokenTtl : Nat := 600

/-- Models the jwt.sign call of media.js line 54: a token over the payload
mediaId and fileUrl, signed with the stream secret, with a ten-minute
expiry, issued at instant `now`. -/
def jwtSignStream (media : MediaAsset) (secret : String) (now : Nat) : StreamToken :=
  ⟨media._id, media.file_url, now, now + streamTokenTtl, secret⟩

/-- Models jwt.verify on an already-parsed stream token: the signature must
match the secret of the verifier and the token must not be expired
(jsonwebtoken rejects exactly when `now ≥ exp`). Failure is the `none`
value handed to the callback as `err`, never an exception. -/
def jwtVerifyStream (tok : StreamToken) (secret : String) (now : Nat) : Option StreamToken :=
  if tok.signedWith == secret && now < tok.exp then some tok else none

/-- Responses of GET /stream/:token: 403, or 200 granting a file URL. -/
inductive StreamResult
  | forbidden
  | granted (fileUrl : String)
deriving DecidableEq

/-- The GET /stream/:token handler (server.js lines 23-31, duplicated at
media.js lines 63-71). `decoded` is the parse of the token segment of the URL,
`none` when the string is not a well-formed token at all; `jwt.verify`
then checks signature and expiry, and the callback branches on `err`. -/
def getStream (decoded : Option StreamToken) (secret : String) (now : Nat) : StreamResult :=
  match decoded.bind (fun tok => jwtVerifyStream tok secret now) with
  | none => .forbidden
  | some d => .granted d.fileUrl

/-- Responses of GET /:id/stream-url: 400, 404, 500, or 200 carrying the
signed token (embedded in the `secure_stream_url`). -/
inductive StreamUrlResult
  | invalidId
  | notFound
  | serverError
  | issued (token : StreamToken)
deriving DecidableEq

/-- Result state of one GET /:id/stream-url call: the response and the
view-log store after the call. -/
structure StreamUrlOut where
  res : StreamUrlResult
  logs : List ViewLogEntry
deriving DecidableEq

/-- The GET /:id/stream-url handler, media.js lines 44-60: validate the
id, find the asset, sign a 10-minute token, save a view-log entry for the
requesting IP, and only then respond with the URL; a failing save lands
in the `catch` and answers 500 without revealing the token. -/
def getStreamUrl (assets : List MediaAsset) (logs : List ViewLogEntry)
    (id ip secret : String) (now : Nat) (saveOk : Bool) : StreamUrlOut :=
  if !isValidObjectId id then ⟨.invalidId, logs⟩
  else
    match findById assets id with
    | none => ⟨.notFound, logs⟩
    | some media =>
      if saveOk then
        ⟨.issued (jwtSignStream media secret now),
         logs ++ [mediaViewLogCreate media._id ip now]⟩
      else ⟨.serverError, logs⟩

/-- The maximal hit count of the viewRateLimiter configuration, media.js line 14. -/
def viewRateLimiterMax : Nat := 1

/-- One hit of the express-rate-limit counter for `ip` within the current
60-second window: the incremented hit count and the updated counters. -/
def rateHit (st : List (String × Nat)) (ip : String) : Nat × List (String × Nat) :=
  match st.find? (fun p => p.1 == ip) with
  | some p => (p.2 + 1, st.map (fun q => if q.1 == ip then (q.1, q.2 + 1) else q))
  | none => (1, st ++ [(ip, 1)])

/-- Outcomes of one POST /:id/view call (after authentication):
201, 429, 404, 400, or 500 from the `catch` around the save. -/
inductive IngestOutcome
  | Accepted
  | RateLimited
  | NotFound
  | InvalidId
  | ServerError
deriving DecidableEq

/-- Result state of one POST /:id/view call: the response, the view-log
store and the rate-limiter counters after the call. -/
structure IngestResult where
  outcome : IngestOutcome
  logs : List ViewLogEntry
  rate : List (String × Nat)
deriving DecidableEq

/-- The POST /:id/view chain, media.js lines 82-107, after the
authentication middleware: the viewRateLimiter middleware counts the hit
and rejects over-quota requests before the handler validates the id,
checks the asset exists, and saves `{media_id, viewed_by_ip, timestamp}`;
a failing save lands in the `catch` and answers 500. -/
def postView (assets : List MediaAsset) (logs : List ViewLogEntry)
    (rate : List (String × Nat)) (id ip : String) (saveOk : Bool) (now : Nat) : IngestResult :=
  let hit := rateHit rate ip
  if viewRateLimiterMax < hit.1 then ⟨.RateLimited, logs, hit.2⟩
  else if !isValidObjectId id then ⟨.InvalidId, logs, hit.2⟩
  else
    match findById assets id with
    | none => ⟨.NotFound, logs, hit.2⟩
    | some media =>
      if saveOk then ⟨.Accepted, logs ++ [⟨media._id, ip, now⟩], hit.2⟩
      else ⟨.ServerError, logs, hit.2⟩

/-- A signed session token: the payload `{id, email}` of auth.js line 44
plus `iat`/`exp`, and the secret it was signed with. -/
structure SessionToken where
  id : String
  email : String
  iat : Nat
  exp : Nat
  signedWith : String
deriving DecidableEq

/-- Models jwt.verify on an already-parsed session token, as
`jwtVerifyStream` but against the session secret. -/
def jwtVerifySession (tok : SessionToken) (secret : String) (now : Nat) : Option SessionToken :=
  if tok.signedWith == secret && now < tok.exp then some tok else none

/-- JS string split at the space character, on the character list: splits
at every single space, keeping empty segments. -/
def splitChars : List Char → List (List Char)
  | [] => [[]]
  | c :: cs =>
    if c = ' ' then [] :: splitChars cs
    else
      match splitChars cs with
      | [] => [[c]]
      | w :: ws => (c :: w) :: ws

/-- JS split of the authorization header at single spaces. -/
def splitSp (s : String) : List String :=
  (splitChars s.data).map String.mk

/-- Responses of the authentication middleware: 401, 403, or pass-through
with the decoded user. -/
inductive AuthResult
  | unauthorized
  | forbidden
  | authorized (user : SessionToken)
deriving DecidableEq

/-- Models auth.js line 6, the extraction of the second space-separated
segment of the authorization header, followed by the falsiness test of
line 7: `none` when the header is absent, empty, has no second segment,
or that segment is the empty string. -/
def extractToken (authHeader : Option String) : Option String :=
  match authHeader with
  | none => none
  | some h =>
    if h = "" then none
    else
      match (splitSp h)[1]? with
      | none => none
      | some t => if t = "" then none else some t

/-- The authenticateToken middleware, auth.js lines 5-18: 401 when no
token could be extracted, 403 when `jwt.verify` reports an error, and
pass-through with the decoded user otherwise. `decode` is the parse of
the extracted string into a token, `none` for a malformed string. -/
def authenticateToken (decode : String → Option SessionToken) (secret : String)
    (now : Nat) (authHeader : Option String) : AuthResult :=
  match extractToken authHeader with
  | none => .unauthorized
  | some t =>
    match (decode t).bind (fun tok => jwtVerifySession tok secret now) with
    | none => .forbidden
    | some user => .authorized user

/-- The durable state of the system: the two document stores and the
rate-limiter counters. -/
structure SysState where
  assets : List MediaAsset
  logs : List ViewLogEntry
  rate : List (String × Nat)

/-- The empty deployment: no assets, no views, fresh counters. -/
def initState : SysState := ⟨[], [], []⟩

/-- The state-mutating operations of the API: POST /media (after its body
validation, media.js lines 26-41), POST /:id/view, and
GET /:id/stream-url. The other routes read but never write. -/
inductive Step : SysState → SysState → Prop
  | postMedia (s : SysState) (m : MediaAsset) (htitle : m.title ≠ "")
      (htype : m.type = "video" ∨ m.type = "audio") (hurl : m.file_url ≠ "") :
      Step s ⟨s.assets ++ [m], s.logs, s.rate⟩
  | postViewStep (s : SysState) (id ip : String) (saveOk : Bool) (now : Nat) :
      Step s ⟨s.assets, (postView s.assets s.logs s.rate id ip saveOk now).logs,
              (postView s.assets s.logs s.rate id ip saveOk now).rate⟩
  | getStreamUrlStep (s : SysState) (id ip secret : String) (now : Nat) (saveOk : Bool) :
      Step s ⟨s.assets, (getStreamUrl s.assets s.logs id ip secret now saveOk).logs, s.rate⟩

/-- States the API can reach from the empty deployment. -/
def Reachable (s : SysState) : Prop :=
  Relation.ReflTransGen Step initState s

/-- Referential integrity of the view log: every entry points at a stored
asset. -/
def LogRefsOk (s : SysState) : Prop :=
  ∀ e ∈ s.logs, ∃ a ∈ s.assets, a._id = e.media_id

/-- The keys (days) of a views-per-day object, in order. -/
def dayKeys (m : List (Nat × Nat)) : List Nat := m.map Prod.fst

/-- The count a views-per-day object holds for day `d` (0 when absent),
i.e. the JS read `views_per_day[d] || 0`. -/
def valOf (m : List (Nat × Nat)) (d : Nat) : Nat :=
  ((m.find? (fun p => p.1 == d)).map Prod.snd).getD 0

/-- The in-place increment branch of media.js line 148. -/
def bump (acc : List (Nat × Nat)) (day : Nat) : List (Nat × Nat) :=
  acc.map (fun p => if p.1 == day then (p.1, p.2 + 1) else p)

theorem dayKeys_nil : dayKeys [] = [] := rfl

theorem dayKeys_cons (p : Nat × Nat) (rest : List (Nat × Nat)) :
    dayKeys (p :: rest) = p.1 :: dayKeys rest := rfl

theorem dayKeys_append (l r : List (Nat × Nat)) :
    dayKeys (l ++ r) = dayKeys l ++ dayKeys r := List.map_append _ _ _

theorem mem_dayKeys {acc : List (Nat × Nat)} {d : Nat} :
    d ∈ dayKeys acc ↔ ∃ p ∈ acc, p.1 = d := by
  simp [dayKeys]

theorem bump_nil (day : Nat) : bump [] day = [] := rfl

theorem bump_cons (p : Nat × Nat) (rest : List (Nat × Nat)) (day : Nat) :
    bump (p :: rest) day =
      (if p.1 == day then (p.1, p.2 + 1) else p) :: bump rest day := rfl

theorem valOf_nil (d : Nat) : valOf [] d = 0 := rfl

theorem valOf_cons_pos {p : Nat × Nat} {d : Nat} (rest : List (Nat × Nat))
    (h : p.1 = d) : valOf (p :: rest) d = p.2 := by
  unfold valOf
  rw [List.find?_cons_of_pos _ (by simp [h])]
  rfl

theorem valOf_cons_neg {p : Nat × Nat} {d : Nat} (rest : List (Nat × Nat))
    (h : ¬p.1 = d) : valOf (p :: rest) d = valOf rest d := by
  unfold valOf
  rw [List.find?_cons_of_neg _ (by simp [h])]

theorem viewsPerDayStep_eq (acc : List (Nat × Nat)) (log : ViewLogEntry) :
    viewsPerDayStep acc log =
      if dayOf log.timestamp ∈ dayKeys acc then bump acc (dayOf log.timestamp)
      else acc ++ [(dayOf log.timestamp, 1)] := by
  unfold viewsPerDayStep bump
  cases hfind : acc.find? (fun p => p.1 == dayOf log.timestamp) with
  | none =>
    rw [if_neg]
    intro hmem
    rcases mem_dayKeys.mp hmem with ⟨p, hp, hp1⟩
    have := List.find?_eq_none.mp hfind p hp
    simp [hp1] at this
  | some p =>
    rw [if_pos]
    exact mem_dayKeys.mpr ⟨p, List.mem_of_find?_eq_some hfind,
      by simpa using List.find?_some hfind⟩

theorem dayKeys_bump (acc : List (Nat × Nat)) (day : Nat) :
    dayKeys (bump acc day) = dayKeys acc := by
  induction acc with
  | nil => rfl
  | cons p rest ih =>
    rw [bump_cons, dayKeys_cons, dayKeys_cons, ih]
    by_cases h : p.1 = day <;> simp [h]

theorem bump_id {acc : List (Nat × Nat)} {day : Nat} (h : day ∉ dayKeys acc) :
    bump acc day = acc := by
  induction acc with
  | nil => rfl
  | cons p rest ih =>
    rw [dayKeys_cons, List.mem_cons] at h
    push_neg at h
    rw [bump_cons, if_neg (by simp [Ne.symm h.1]), ih h.2]

theorem sum_bump {acc : List (Nat × Nat)} {day : Nat} (h : day ∈ dayKeys acc)
    (hnd : (dayKeys acc).Nodup) :
    ((bump acc day).map Prod.snd).sum = (acc.map Prod.snd).sum + 1 := by
  induction acc with
  | nil => simp [dayKeys_nil] at h
  | cons p rest ih =>
    rw [dayKeys_cons, List.nodup_cons] at hnd
    rw [bump_cons, List.map_cons, List.sum_cons, List.map_cons, List.sum_cons]
    by_cases hp : p.1 = day
    · rw [if_pos (by simp [hp]), bump_id (hp ▸ hnd.1)]
      omega
    · have hmem : day ∈ dayKeys rest := by
        rw [dayKeys_cons, List.mem_cons] at h
        exact h.resolve_left (fun hh => hp hh.symm)
      rw [if_neg (by simp [hp]), ih hmem hnd.2]
      omega

theorem valOf_bump_self {acc : List (Nat × Nat)} {day : Nat} (h : day ∈ dayKeys acc) :
    valOf (bump acc day) day = valOf acc day + 1 := by
  induction acc with
  | nil => simp [dayKeys_nil] at h
  | cons p rest ih =>
    by_cases hp : p.1 = day
    · rw [bump_cons, if_pos (by simp [hp]), valOf_cons_pos _ hp,
        valOf_cons_pos _ (show ((p.1, p.2 + 1) : Nat × Nat).1 = day from hp)]
    · have hmem : day ∈ dayKeys rest := by
        rw [dayKeys_cons, List.mem_cons] at h
        exact h.resolve_left (fun hh => hp hh.symm)
      rw [bump_cons, if_neg (by simp [hp]), valOf_cons_neg _ hp, valOf_cons_neg _ hp,
        ih hmem]

theorem valOf_bump_ne {acc : List (Nat × Nat)} {day d : Nat} (h : d ≠ day) :
    valOf (bump acc day) d = valOf acc d := by
  induction acc with
  | nil => rfl
  | cons p rest ih =>
    by_cases hp : p.1 = day
    · rw [bump_cons, if_pos (by simp [hp]),
        @valOf_cons_neg (p.1, p.2 + 1) d (bump rest day) (show ¬(p.1 = d) by omega),
        valOf_cons_neg _ (show ¬(p.1 = d) by omega), ih]
    · by_cases hd : p.1 = d
      · rw [bump_cons, if_neg (by simp [hp]), valOf_cons_pos _ hd, valOf_cons_pos _ hd]
      · rw [bump_cons, if_neg (by simp [hp]), valOf_cons_neg _ hd, valOf_cons_neg _ hd, ih]

theorem valOf_eq_zero_of_not_mem {acc : List (Nat × Nat)} {d : Nat}
    (h : d ∉ dayKeys acc) : valOf acc d = 0 := by
  have hf : acc.find? (fun p => p.1 == d) = none := by
    rw [List.find?_eq_none]
    intro p hp
    simp only [Bool.not_eq_true, beq_eq_false_iff_ne]
    exact fun hh => h (mem_dayKeys.mpr ⟨p, hp, hh⟩)
  simp [valOf, hf]

theorem valOf_append_new {acc : List (Nat × Nat)} {day : Nat} (d : Nat)
    (h : day ∉ dayKeys acc) :
    valOf (acc ++ [(day, 1)]) d = valOf acc d + (if day == d then 1 else 0) := by
  induction acc with
  | nil =>
    by_cases hd : day = d
    · rw [List.nil_append, valOf_cons_pos _ hd, valOf_nil, if_pos (by simp [hd])]
    · rw [List.nil_append, valOf_cons_neg _ hd]
      simp [hd]
  | cons p rest ih =>
    rw [dayKeys_cons, List.mem_cons] at h
    push_neg at h
    obtain ⟨h1, h2⟩ := h
    rw [List.cons_append]
    by_cases hd : p.1 = d
    · rw [valOf_cons_pos _ hd, valOf_cons_pos _ hd,
        if_neg (by simp only [beq_iff_eq]; omega)]
      omega
    · rw [valOf_cons_neg _ hd, valOf_cons_neg _ hd, ih h2]

theorem step_nodup {acc : List (Nat × Nat)} (log : ViewLogEntry)
    (hnd : (dayKeys acc).Nodup) : (dayKeys (viewsPerDayStep acc log)).Nodup := by
  rw [viewsPerDayStep_eq]
  by_cases h : dayOf log.timestamp ∈ dayKeys acc
  · rw [if_pos h, dayKeys_bump]
    exact hnd
  · rw [if_neg h, dayKeys_append]
    rw [List.nodup_append]
    refine ⟨hnd, List.nodup_singleton _, ?_⟩
    intro a ha hmem
    rw [dayKeys_cons, dayKeys_nil, List.mem_singleton] at hmem
    subst hmem
    exact h ha

theorem step_sum {acc : List (Nat × Nat)} (log : ViewLogEntry)
    (hnd : (dayKeys acc).Nodup) :
    ((viewsPerDayStep acc log).map Prod.snd).sum = (acc.map Prod.snd).sum + 1 := by
  rw [viewsPerDayStep_eq]
  by_cases h : dayOf log.timestamp ∈ dayKeys acc
  · rw [if_pos h]
    exact sum_bump h hnd
  · rw [if_neg h, List.map_append, List.sum_append]
    simp

theorem step_val (acc : List (Nat × Nat)) (log : ViewLogEntry) (d : Nat) :
    valOf (viewsPerDayStep acc log) d =
      valOf acc d + (if dayOf log.timestamp == d then 1 else 0) := by
  rw [viewsPerDayStep_eq]
  by_cases h : dayOf log.timestamp ∈ dayKeys acc
  · rw [if_pos h]
    by_cases hd : d = dayOf log.timestamp
    · subst hd
      rw [valOf_bump_self h, if_pos (by simp)]
    · rw [valOf_bump_ne hd, if_neg (by simp; omega)]
      omega
  · rw [if_neg h]
    exact valOf_append_new d h

theorem step_keys_toFinset (acc : List (Nat × Nat)) (log : ViewLogEntry) :
    (dayKeys (viewsPerDayStep acc log)).toFinset =
      (dayKeys acc).toFinset ∪ {dayOf log.timestamp} := by
  rw [viewsPerDayStep_eq]
  by_cases h : dayOf log.timestamp ∈ dayKeys acc
  · rw [if_pos h, dayKeys_bump]
    have : dayOf log.timestamp ∈ (dayKeys acc).toFinset := List.mem_toFinset.mpr h
    ext a
    simp only [Finset.mem_union, Finset.mem_singleton, List.mem_toFinset] at *
    constructor
    · exact Or.inl
    · rintro (ha | rfl)
      · exact ha
      · exact h
  · rw [if_neg h, dayKeys_append, List.toFinset_append]
    congr 1

theorem vpd_foldl_nodup (logs : List ViewLogEntry) :
    ∀ acc : List (Nat × Nat), (dayKeys acc).Nodup →
      (dayKeys (logs.foldl viewsPerDayStep acc)).Nodup := by
  induction logs with
  | nil => exact fun acc h => h
  | cons log rest ih =>
    intro acc h
    rw [List.foldl_cons]
    exact ih _ (step_nodup log h)

theorem vpd_foldl_sum (logs : List ViewLogEntry) :
    ∀ acc : List (Nat × Nat), (dayKeys acc).Nodup →
      ((logs.foldl viewsPerDayStep acc).map Prod.snd).sum =
        (acc.map Prod.snd).sum + logs.length := by
  induction logs with
  | nil => intro acc _; simp
  | cons log rest ih =>
    intro acc h
    rw [List.foldl_cons, ih _ (step_nodup log h), step_sum log h, List.length_cons]
    omega

theorem vpd_foldl_val (logs : List ViewLogEntry) :
    ∀ (acc : List (Nat × Nat)) (d : Nat),
      valOf (logs.foldl viewsPerDayStep acc) d =
        valOf acc d + logs.countP (fun l => dayOf l.timestamp == d) := by
  induction logs with
  | nil => intro acc d; simp
  | cons log rest ih =>
    intro acc d
    rw [List.foldl_cons, ih, step_val, List.countP_cons]
    cases hc : (dayOf log.timestamp == d) with
    | false => simp [hc]
    | true =>
      simp only [hc, if_pos rfl, if_true]
      omega

theorem vpd_foldl_keys (logs : List ViewLogEntry) :
    ∀ acc : List (Nat × Nat),
      (dayKeys (logs.foldl viewsPerDayStep acc)).toFinset =
        (dayKeys acc).toFinset ∪ (logs.map (fun l => dayOf l.timestamp)).toFinset := by
  induction logs with
  | nil => intro acc; simp
  | cons log rest ih =>
    intro acc
    rw [List.foldl_cons, ih, step_keys_toFinset, List.map_cons, List.toFinset_cons]
    ext a
    simp only [Finset.mem_union, Finset.mem_singleton, Finset.mem_insert]
    tauto

theorem views_per_day_nodup (logs : List ViewLogEntry) :
    (dayKeys (views_per_day logs)).Nodup :=
  vpd_foldl_nodup logs [] (by simp [dayKeys_nil])

theorem views_per_day_sum (logs : List ViewLogEntry) :
    ((views_per_day logs).map Prod.snd).sum = logs.length := by
  have := vpd_foldl_sum logs [] (by simp [dayKeys_nil])
  simpa [views_per_day] using this

theorem views_per_day_val (logs : List ViewLogEntry) (d : Nat) :
    valOf (views_per_day logs) d = logs.countP (fun l => dayOf l.timestamp == d) := by
  have := vpd_foldl_val logs [] d
  simpa [views_per_day, valOf_nil] using this

theorem views_per_day_keys (logs : List ViewLogEntry) :
    (dayKeys (views_per_day logs)).toFinset =
      (logs.map (fun l => dayOf l.timestamp)).toFinset := by
  have := vpd_foldl_keys logs []
  simpa [views_per_day] using this

theorem views_per_day_length (logs : List ViewLogEntry) :
    (views_per_day logs).length =
      (logs.map (fun l => dayOf l.timestamp)).toFinset.card := by
  have h1 : (views_per_day logs).length = (dayKeys (views_per_day logs)).length := by
    simp [dayKeys]
  rw [h1, ← List.toFinset_card_of_nodup (views_per_day_nodup logs),
    views_per_day_keys]

/-- On a valid id naming a stored asset, the analytics handler answers 200
with the aggregation of the rows of that asset. -/
theorem getAnalytics_eq_ok (assets : List MediaAsset) (logs : List ViewLogEntry)
    (id : String) (m : MediaAsset) (hv : isValidObjectId id = true)
    (hm : findById assets id = some m) :
    getAnalytics assets logs id =
      .ok ⟨(logs.filter (fun log => log.media_id == id)).length,
           ((logs.filter (fun log => log.media_id == id)).map
             (fun log => log.viewed_by_ip)).toFinset.card,
           views_per_day (logs.filter (fun log => log.media_id == id))⟩ := by
  unfold getAnalytics
  rw [hv, hm]
  rfl

/-- C1: for every store of ingested view-log entries and every existing
asset, the analytics aggregation returns total_views equal to the number
N of rows of that asset, unique_ips equal to the number K of distinct
client IPs among them, and a views_per_day mapping whose keys are without
duplicates and are exactly the D distinct UTC calendar days of the rows
(so exactly D keys, days with zero views absent), and whose values sum
to N. -/
theorem analytics_aggregation_counts (assets : List MediaAsset)
    (logs : List ViewLogEntry) (id : String) (m : MediaAsset)
    (hv : isValidObjectId id = true) (hm : findById assets id = some m) :
    ∃ s, getAnalytics assets logs id = .ok s ∧
      s.total_views = (logs.filter (fun log => log.media_id == id)).length ∧
      s.unique_ips = ((logs.filter (fun log => log.media_id == id)).map
        (fun log => log.viewed_by_ip)).toFinset.card ∧
      (dayKeys s.views_per_day).Nodup ∧
      (dayKeys s.views_per_day).toFinset = ((logs.filter (fun log => log.media_id == id)).map
        (fun l => dayOf l.timestamp)).toFinset ∧
      s.views_per_day.length = ((logs.filter (fun log => log.media_id == id)).map
        (fun l => dayOf l.timestamp)).toFinset.card ∧
      (s.views_per_day.map Prod.snd).sum = (logs.filter (fun log => log.media_id == id)).length :=
  ⟨_, getAnalytics_eq_ok assets logs id m hv hm, rfl, rfl, views_per_day_nodup _,
    views_per_day_keys _, views_per_day_length _, views_per_day_sum _⟩

/-- Witness for C1: three views from two IPs on two UTC days. -/
theorem analytics_aggregation_counts_witness :
    ∃ s, getAnalytics [⟨"aaaaaaaaaaaaaaaaaaaaaaaa", "t", "video", "u"⟩]
        [⟨"aaaaaaaaaaaaaaaaaaaaaaaa", "1.1.1.1", 10⟩,
         ⟨"aaaaaaaaaaaaaaaaaaaaaaaa", "2.2.2.2", 86405⟩,
         ⟨"aaaaaaaaaaaaaaaaaaaaaaaa", "1.1.1.1", 86410⟩]
        "aaaaaaaaaaaaaaaaaaaaaaaa" = .ok s ∧
      s.total_views = ([(⟨"aaaaaaaaaaaaaaaaaaaaaaaa", "1.1.1.1", 10⟩ : ViewLogEntry),
         ⟨"aaaaaaaaaaaaaaaaaaaaaaaa", "2.2.2.2", 86405⟩,
         ⟨"aaaaaaaaaaaaaaaaaaaaaaaa", "1.1.1.1", 86410⟩].filter
           (fun log => log.media_id == "aaaaaaaaaaaaaaaaaaaaaaaa")).length ∧
      s.unique_ips = (([(⟨"aaaaaaaaaaaaaaaaaaaaaaaa", "1.1.1.1", 10⟩ : ViewLogEntry),
         ⟨"aaaaaaaaaaaaaaaaaaaaaaaa", "2.2.2.2", 86405⟩,
         ⟨"aaaaaaaaaaaaaaaaaaaaaaaa", "1.1.1.1", 86410⟩].filter
           (fun log => log.media_id == "aaaaaaaaaaaaaaaaaaaaaaaa")).map
        (fun log => log.viewed_by_ip)).toFinset.card ∧
      (dayKeys s.views_per_day).Nodup ∧
      (dayKeys s.views_per_day).toFinset = (([(⟨"aaaaaaaaaaaaaaaaaaaaaaaa", "1.1.1.1", 10⟩ : ViewLogEntry),
         ⟨"aaaaaaaaaaaaaaaaaaaaaaaa", "2.2.2.2", 86405⟩,
         ⟨"aaaaaaaaaaaaaaaaaaaaaaaa", "1.1.1.1", 86410⟩].filter
           (fun log => log.media_id == "aaaaaaaaaaaaaaaaaaaaaaaa")).map
        (fun l => dayOf l.timestamp)).toFinset ∧
      s.views_per_day.length = (([(⟨"aaaaaaaaaaaaaaaaaaaaaaaa", "1.1.1.1", 10⟩ : ViewLogEntry),
         ⟨"aaaaaaaaaaaaaaaaaaaaaaaa", "2.2.2.2", 86405⟩,
         ⟨"aaaaaaaaaaaaaaaaaaaaaaaa", "1.1.1.1", 86410⟩].filter
           (fun log => log.media_id == "aaaaaaaaaaaaaaaaaaaaaaaa")).map
        (fun l => dayOf l.timestamp)).toFinset.card ∧
      (s.views_per_day.map Prod.snd).sum = ([(⟨"aaaaaaaaaaaaaaaaaaaaaaaa", "1.1.1.1", 10⟩ : ViewLogEntry),
         ⟨"aaaaaaaaaaaaaaaaaaaaaaaa", "2.2.2.2", 86405⟩,
         ⟨"aaaaaaaaaaaaaaaaaaaaaaaa", "1.1.1.1", 86410⟩].filter
           (fun log => log.media_id == "aaaaaaaaaaaaaaaaaaaaaaaa")).length :=
  analytics_aggregation_counts _ _ _ ⟨"aaaaaaaaaaaaaaaaaaaaaaaa", "t", "video", "u"⟩
    (by decide) (by decide)

/-- C8: the analytics aggregation applied to an existing asset with zero
stored view-log entries returns the summary with total_views 0,
unique_ips 0 and an empty views_per_day mapping, as a 200 result, not an
error. -/
theorem analytics_empty_log (assets : List MediaAsset) (logs : List ViewLogEntry)
    (id : String) (m : MediaAsset) (hv : isValidObjectId id = true)
    (hm : findById assets id = some m) (hnone : ∀ e ∈ logs, e.media_id ≠ id) :
    getAnalytics assets logs id = .ok ⟨0, 0, []⟩ := by
  have hfil : logs.filter (fun log => log.media_id == id) = [] := by
    rw [List.filter_eq_nil_iff]
    intro a ha
    simpa using hnone a ha
  rw [getAnalytics_eq_ok assets logs id m hv hm, hfil]
  rfl

/-- Witness for C8: one stored asset, empty view log. -/
theorem analytics_empty_log_witness :
    getAnalytics [⟨"aaaaaaaaaaaaaaaaaaaaaaaa", "t", "video", "u"⟩] []
      "aaaaaaaaaaaaaaaaaaaaaaaa" = .ok ⟨0, 0, []⟩ :=
  analytics_empty_log _ _ _ ⟨"aaaaaaaaaaaaaaaaaaaaaaaa", "t", "video", "u"⟩
    (by decide) (by decide) (by decide)

/-- C2: the analytics aggregation is a pure function of the stored log
set at call time: two calls on equal stores produce identical summaries,
and ingesting one additional view for the asset between two calls
increases total_views by exactly one while unique_ips and every
existing day count stay the same or increase. -/
theorem analytics_pure_and_monotone (assets : List MediaAsset)
    (logs : List ViewLogEntry) (id : String) (m : MediaAsset)
    (hv : isValidObjectId id = true) (hm : findById assets id = some m) :
    (∀ logs2 : List ViewLogEntry, logs2 = logs →
      getAnalytics assets logs2 id = getAnalytics assets logs id) ∧
    ∀ e : ViewLogEntry, e.media_id = id →
      ∃ s s2, getAnalytics assets logs id = .ok s ∧
        getAnalytics assets (logs ++ [e]) id = .ok s2 ∧
        s2.total_views = s.total_views + 1 ∧
        s.unique_ips ≤ s2.unique_ips ∧
        ∀ d, valOf s.views_per_day d ≤ valOf s2.views_per_day d := by
  refine ⟨fun logs2 h => by rw [h], ?_⟩
  intro e he
  have hfil : (logs ++ [e]).filter (fun log => log.media_id == id) =
      logs.filter (fun log => log.media_id == id) ++ [e] := by
    rw [List.filter_append]
    congr 1
    simp [he]
  refine ⟨_, _, getAnalytics_eq_ok assets logs id m hv hm,
    getAnalytics_eq_ok assets (logs ++ [e]) id m hv hm, ?_, ?_, ?_⟩
  · simp [hfil]
  · simp only [hfil, List.map_append, List.toFinset_append]
    exact Finset.card_le_card Finset.subset_union_left
  · intro d
    simp only [hfil, views_per_day_val, List.countP_append]
    omega

/-- Witness for C2: one stored asset with one logged view. -/
theorem analytics_pure_and_monotone_witness :
    (∀ logs2 : List ViewLogEntry,
      logs2 = [⟨"aaaaaaaaaaaaaaaaaaaaaaaa", "1.1.1.1", 10⟩] →
      getAnalytics [⟨"aaaaaaaaaaaaaaaaaaaaaaaa", "t", "video", "u"⟩] logs2
          "aaaaaaaaaaaaaaaaaaaaaaaa" =
        getAnalytics [⟨"aaaaaaaaaaaaaaaaaaaaaaaa", "t", "video", "u"⟩]
          [⟨"aaaaaaaaaaaaaaaaaaaaaaaa", "1.1.1.1", 10⟩] "aaaaaaaaaaaaaaaaaaaaaaaa") ∧
    ∀ e : ViewLogEntry, e.media_id = "aaaaaaaaaaaaaaaaaaaaaaaa" →
      ∃ s s2, getAnalytics [⟨"aaaaaaaaaaaaaaaaaaaaaaaa", "t", "video", "u"⟩]
          [⟨"aaaaaaaaaaaaaaaaaaaaaaaa", "1.1.1.1", 10⟩] "aaaaaaaaaaaaaaaaaaaaaaaa" = .ok s ∧
        getAnalytics [⟨"aaaaaaaaaaaaaaaaaaaaaaaa", "t", "video", "u"⟩]
          ([⟨"aaaaaaaaaaaaaaaaaaaaaaaa", "1.1.1.1", 10⟩] ++ [e])
          "aaaaaaaaaaaaaaaaaaaaaaaa" = .ok s2 ∧
        s2.total_views = s.total_views + 1 ∧
        s.unique_ips ≤ s2.unique_ips ∧
        ∀ d, valOf s.views_per_day d ≤ valOf s2.views_per_day d :=
  analytics_pure_and_monotone _ _ _ ⟨"aaaaaaaaaaaaaaaaaaaaaaaa", "t", "video", "u"⟩
    (by decide) (by decide)

/-- C3: a stream token issued for an existing asset verifies successfully
at every instant strictly before issuance plus the 600-second TTL and is
rejected at and after that instant; every successful redemption before
expiry returns exactly the file_url bound at issuance, and since
redemption is stateless this holds for any number of redemptions. -/
theorem stream_token_lifecycle (media : MediaAsset) (secret : String) (now t : Nat) :
    (t < now + streamTokenTtl →
      getStream (some (jwtSignStream media secret now)) secret t =
        .granted media.file_url) ∧
    (now + streamTokenTtl ≤ t →
      getStream (some (jwtSignStream media secret now)) secret t = .forbidden) ∧
    ∀ times : List Nat, (∀ x ∈ times, x < now + streamTokenTtl) →
      times.map (fun x => getStream (some (jwtSignStream media secret now)) secret x) =
        times.map (fun _ => .granted media.file_url) := by
  have hgrant : ∀ x : Nat, x < now + streamTokenTtl →
      getStream (some (jwtSignStream media secret now)) secret x =
        .granted media.file_url := by
    intro x hx
    simp [getStream, jwtVerifyStream, jwtSignStream, hx]
  refine ⟨hgrant t, ?_, ?_⟩
  · intro h
    have hc : ¬(t < now + streamTokenTtl) := by omega
    simp [getStream, jwtVerifyStream, jwtSignStream, hc]
  · intro times ht
    exact List.map_congr_left (fun x hx => hgrant x (ht x hx))

/-- Witness for C3: a token issued at 100 redeems at 699 and fails at 700. -/
theorem stream_token_lifecycle_witness :
    getStream (some (jwtSignStream ⟨"aaaaaaaaaaaaaaaaaaaaaaaa", "t", "video", "u"⟩
        "sec" 100)) "sec" 699 = .granted "u" ∧
    getStream (some (jwtSignStream ⟨"aaaaaaaaaaaaaaaaaaaaaaaa", "t", "video", "u"⟩
        "sec" 100)) "sec" 700 = .forbidden :=
  ⟨(stream_token_lifecycle ⟨"aaaaaaaaaaaaaaaaaaaaaaaa", "t", "video", "u"⟩
      "sec" 100 699).1 (by decide),
   (stream_token_lifecycle ⟨"aaaaaaaaaaaaaaaaaaaaaaaa", "t", "video", "u"⟩
      "sec" 100 700).2.1 (by decide)⟩

/-- C7: stream-token verification is a total function returning a typed
result the handler branches on: every call answers either 403 or a grant,
and a malformed token, a signature mismatch, or presentation at or after
the expiry instant each yield the 403 branch; no exception crosses the
verification boundary. -/
theorem verify_failures_typed (decoded : Option StreamToken) (secret : String) (now : Nat) :
    (getStream decoded secret now = .forbidden ∨
      ∃ u, getStream decoded secret now = .granted u) ∧
    (decoded = none → getStream decoded secret now = .forbidden) ∧
    (∀ tok, decoded = some tok → tok.signedWith ≠ secret →
      getStream decoded secret now = .forbidden) ∧
    (∀ tok, decoded = some tok → tok.exp ≤ now →
      getStream decoded secret now = .forbidden) := by
  refine ⟨?_, ?_, ?_, ?_⟩
  · cases decoded with
    | none => exact Or.inl rfl
    | some tok =>
      by_cases hs : tok.signedWith = secret
      · by_cases hlt : now < tok.exp
        · exact Or.inr ⟨tok.fileUrl, by simp [getStream, jwtVerifyStream, hs, hlt]⟩
        · exact Or.inl (by simp [getStream, jwtVerifyStream, hs, hlt])
      · exact Or.inl (by simp [getStream, jwtVerifyStream, hs])
  · intro h
    subst h
    rfl
  · intro tok h hne
    subst h
    simp [getStream, jwtVerifyStream, hne]
  · intro tok h hexp
    subst h
    have hc : ¬(now < tok.exp) := by omega
    simp [getStream, jwtVerifyStream, hc]

/-- Witness for C7: malformed, wrong-secret, and expired tokens all
answer 403. -/
theorem verify_failures_typed_witness :
    getStream none "sec" 0 = .forbidden ∧
    getStream (some ⟨"m", "u", 0, 600, "other"⟩) "sec" 10 = .forbidden ∧
    getStream (some ⟨"m", "u", 0, 600, "sec"⟩) "sec" 600 = .forbidden :=
  ⟨(verify_failures_typed none "sec" 0).2.1 rfl,
   (verify_failures_typed (some ⟨"m", "u", 0, 600, "other"⟩) "sec" 10).2.2.1
     ⟨"m", "u", 0, 600, "other"⟩ rfl (by decide),
   (verify_failures_typed (some ⟨"m", "u", 0, 600, "sec"⟩) "sec" 600).2.2.2
     ⟨"m", "u", 0, 600, "sec"⟩ rfl (by decide)⟩

/-- Characterization of the POST /:id/view chain: an Accepted outcome
appends exactly the one entry built from the found asset, and every other
outcome leaves the view-log store unchanged. -/
theorem postView_spec (assets : List MediaAsset) (logs : List ViewLogEntry)
    (rate : List (String × Nat)) (id ip : String) (saveOk : Bool) (now : Nat) :
    ((postView assets logs rate id ip saveOk now).outcome = .Accepted →
      ∃ m, findById assets id = some m ∧
        (postView assets logs rate id ip saveOk now).logs =
          logs ++ [(⟨m._id, ip, now⟩ : ViewLogEntry)]) ∧
    ((postView assets logs rate id ip saveOk now).outcome ≠ .Accepted →
      (postView assets logs rate id ip saveOk now).logs = logs) := by
  unfold postView
  by_cases h1 : viewRateLimiterMax < (rateHit rate ip).1
  · simp [h1]
  · by_cases h2 : isValidObjectId id
    · cases hm : findById assets id with
      | none => simp [h1, h2, hm]
      | some m =>
        cases saveOk with
        | true =>
          simp only [h1, h2, hm, if_neg, if_pos, Bool.not_true]
          exact ⟨fun _ => ⟨m, rfl, rfl⟩, fun h => absurd rfl h⟩
        | false => simp [h1, h2, hm]
    · simp [h1, h2]

/-- The view-log store after POST /:id/view either is unchanged or grew
by one entry whose media_id is the id of a stored asset. -/
theorem postView_logs_cases (assets : List MediaAsset) (logs : List ViewLogEntry)
    (rate : List (String × Nat)) (id ip : String) (saveOk : Bool) (now : Nat) :
    (postView assets logs rate id ip saveOk now).logs = logs ∨
    ∃ m, findById assets id = some m ∧
      (postView assets logs rate id ip saveOk now).logs =
        logs ++ [(⟨m._id, ip, now⟩ : ViewLogEntry)] := by
  by_cases h : (postView assets logs rate id ip saveOk now).outcome = .Accepted
  · exact Or.inr ((postView_spec assets logs rate id ip saveOk now).1 h)
  · exact Or.inl ((postView_spec assets logs rate id ip saveOk now).2 h)

/-- C4 (amended): a view-ingestion call returns exactly one of Accepted
(201), RateLimited (429), NotFound (404), InvalidId (400), or
InternalError (500, when the store append fails), appends exactly one
view-log entry when the outcome is Accepted, and appends no entry on any
other outcome. -/
theorem ingest_outcome_effect (assets : List MediaAsset) (logs : List ViewLogEntry)
    (rate : List (String × Nat)) (id ip : String) (saveOk : Bool) (now : Nat) :
    ((postView assets logs rate id ip saveOk now).outcome = .Accepted ∨
     (postView assets logs rate id ip saveOk now).outcome = .RateLimited ∨
     (postView assets logs rate id ip saveOk now).outcome = .NotFound ∨
     (postView assets logs rate id ip saveOk now).outcome = .InvalidId ∨
     (postView assets logs rate id ip saveOk now).outcome = .ServerError) ∧
    ((postView assets logs rate id ip saveOk now).outcome = .Accepted →
      ∃ m, findById assets id = some m ∧
        (postView assets logs rate id ip saveOk now).logs =
          logs ++ [(⟨m._id, ip, now⟩ : ViewLogEntry)]) ∧
    ((postView assets logs rate id ip saveOk now).outcome ≠ .Accepted →
      (postView assets logs rate id ip saveOk now).logs = logs) := by
  refine ⟨?_, postView_spec assets logs rate id ip saveOk now⟩
  cases (postView assets logs rate id ip saveOk now).outcome <;> simp

/-- Witness for C4: an accepted ingestion appends its one entry. -/
theorem ingest_outcome_effect_witness :
    ∃ m, findById [⟨"aaaaaaaaaaaaaaaaaaaaaaaa", "t", "video", "u"⟩]
        "aaaaaaaaaaaaaaaaaaaaaaaa" = some m ∧
      (postView [⟨"aaaaaaaaaaaaaaaaaaaaaaaa", "t", "video", "u"⟩] [] []
        "aaaaaaaaaaaaaaaaaaaaaaaa" "1.2.3.4" true 5).logs =
        [] ++ [(⟨m._id, "1.2.3.4", 5⟩ : ViewLogEntry)] :=
  (ingest_outcome_effect [⟨"aaaaaaaaaaaaaaaaaaaaaaaa", "t", "video", "u"⟩] [] []
    "aaaaaaaaaaaaaaaaaaaaaaaa" "1.2.3.4" true 5).2.1 (by decide)

/-- Counterexample to C4 as stated: with a valid id naming a stored asset
and a failing database save, the call answers ServerError (500), which is
none of the four outcomes the claim lists. -/
theorem ingest_four_outcomes_cex :
    (postView [⟨"aaaaaaaaaaaaaaaaaaaaaaaa", "t", "video", "u"⟩] [] []
      "aaaaaaaaaaaaaaaaaaaaaaaa" "1.2.3.4" false 5).outcome = .ServerError ∧
    ¬((postView [⟨"aaaaaaaaaaaaaaaaaaaaaaaa", "t", "video", "u"⟩] [] []
        "aaaaaaaaaaaaaaaaaaaaaaaa" "1.2.3.4" false 5).outcome = .Accepted ∨
      (postView [⟨"aaaaaaaaaaaaaaaaaaaaaaaa", "t", "video", "u"⟩] [] []
        "aaaaaaaaaaaaaaaaaaaaaaaa" "1.2.3.4" false 5).outcome = .RateLimited ∨
      (postView [⟨"aaaaaaaaaaaaaaaaaaaaaaaa", "t", "video", "u"⟩] [] []
        "aaaaaaaaaaaaaaaaaaaaaaaa" "1.2.3.4" false 5).outcome = .NotFound ∨
      (postView [⟨"aaaaaaaaaaaaaaaaaaaaaaaa", "t", "video", "u"⟩] [] []
        "aaaaaaaaaaaaaaaaaaaaaaaa" "1.2.3.4" false 5).outcome = .InvalidId) := by
  decide

/-- On a valid id naming a stored asset and a succeeding save, the
stream-url handler issues the signed token and appends one view-log
entry. -/
theorem getStreamUrl_success (assets : List MediaAsset) (logs : List ViewLogEntry)
    (id ip secret : String) (now : Nat) (m : MediaAsset)
    (hv : isValidObjectId id = true) (hm : findById assets id = some m) :
    getStreamUrl assets logs id ip secret now true =
      ⟨.issued (jwtSignStream m secret now),
       logs ++ [mediaViewLogCreate m._id ip now]⟩ := by
  unfold getStreamUrl
  rw [hv, hm]
  rfl

/-- Characterization of GET /:id/stream-url: an issued token always comes
from a found asset together with exactly one appended view-log entry, and
a call that issues nothing leaves the store unchanged. -/
theorem getStreamUrl_spec (assets : List MediaAsset) (logs : List ViewLogEntry)
    (id ip secret : String) (now : Nat) (saveOk : Bool) :
    (∀ tok, (getStreamUrl assets logs id ip secret now saveOk).res = .issued tok →
      ∃ m, findById assets id = some m ∧ tok = jwtSignStream m secret now ∧
        (getStreamUrl assets logs id ip secret now saveOk).logs =
          logs ++ [mediaViewLogCreate m._id ip now]) ∧
    ((∀ tok, (getStreamUrl assets logs id ip secret now saveOk).res ≠ .issued tok) →
      (getStreamUrl assets logs id ip secret now saveOk).logs = logs) := by
  unfold getStreamUrl
  by_cases h2 : isValidObjectId id
  · cases hm : findById assets id with
    | none => simp [h2, hm]
    | some m =>
      cases saveOk with
      | true =>
        simp only [h2, hm, Bool.not_true, if_pos]
        refine ⟨?_, ?_⟩
        · intro tok htok
          exact ⟨m, rfl, by simpa using htok.symm, rfl⟩
        · intro hno
          exact absurd rfl (hno (jwtSignStream m secret now))
      | false => simp [h2, hm]
  · simp [h2]

/-- When the save fails, the stream-url handler leaves the store
unchanged and never issues a token. -/
theorem getStreamUrl_saveFail (assets : List MediaAsset) (logs : List ViewLogEntry)
    (id ip secret : String) (now : Nat) :
    ((getStreamUrl assets logs id ip secret now false).logs = logs ∧
      ∀ tok, (getStreamUrl assets logs id ip secret now false).res ≠ .issued tok) := by
  unfold getStreamUrl
  by_cases h2 : isValidObjectId id
  · cases hm : findById assets id with
    | none => simp [h2, hm]
    | some m => simp [h2, hm]
  · simp [h2]

/-- C5: every successful stream-URL request for an existing asset
produces one stream token and appends exactly one view-log entry of shape
media_id, viewed_by_ip, timestamp recording the requesting client IP for
that asset. -/
theorem streamUrl_issues_and_logs (assets : List MediaAsset) (logs : List ViewLogEntry)
    (id ip secret : String) (now : Nat) (m : MediaAsset)
    (hv : isValidObjectId id = true) (hm : findById assets id = some m) :
    getStreamUrl assets logs id ip secret now true =
      ⟨.issued (jwtSignStream m secret now),
       logs ++ [(⟨m._id, ip, now⟩ : ViewLogEntry)]⟩ :=
  getStreamUrl_success assets logs id ip secret now m hv hm

/-- Witness for C5: issuance for a stored asset at instant 50. -/
theorem streamUrl_issues_and_logs_witness :
    getStreamUrl [⟨"aaaaaaaaaaaaaaaaaaaaaaaa", "t", "video", "u"⟩] []
        "aaaaaaaaaaaaaaaaaaaaaaaa" "9.9.9.9" "sec" 50 true =
      ⟨.issued (jwtSignStream ⟨"aaaaaaaaaaaaaaaaaaaaaaaa", "t", "video", "u"⟩ "sec" 50),
       [] ++ [(⟨"aaaaaaaaaaaaaaaaaaaaaaaa", "9.9.9.9", 50⟩ : ViewLogEntry)]⟩ :=
  streamUrl_issues_and_logs _ _ _ _ _ _ ⟨"aaaaaaaaaaaaaaaaaaaaaaaa", "t", "video", "u"⟩
    (by decide) (by decide)

/-- C10: in the stream-URL handler the signed token is only observable
after the view-log append succeeded: on a failing append the handler
answers 500 with the store unchanged and no token is returned, and every
response carrying an issued token comes with its coupled appended
entry. -/
theorem streamUrl_no_token_without_log (assets : List MediaAsset)
    (logs : List ViewLogEntry) (id ip secret : String) (now : Nat) :
    ((getStreamUrl assets logs id ip secret now false).logs = logs ∧
      ∀ tok, (getStreamUrl assets logs id ip secret now false).res ≠ .issued tok) ∧
    (isValidObjectId id = true → ∀ m, findById assets id = some m →
      getStreamUrl assets logs id ip secret now false = ⟨.serverError, logs⟩) ∧
    (∀ saveOk tok, (getStreamUrl assets logs id ip secret now saveOk).res = .issued tok →
      (getStreamUrl assets logs id ip secret now saveOk).logs =
        logs ++ [mediaViewLogCreate tok.mediaId ip now]) := by
  refine ⟨getStreamUrl_saveFail assets logs id ip secret now, ?_, ?_⟩
  · intro hv m hm
    unfold getStreamUrl
    rw [hv, hm]
    rfl
  · intro saveOk tok htok
    obtain ⟨m, hm, hsig, hlogs⟩ :=
      (getStreamUrl_spec assets logs id ip secret now saveOk).1 tok htok
    rw [hlogs, hsig]
    rfl

/-- Witness for C10: a failing save on a stored asset answers 500 and
logs nothing. -/
theorem streamUrl_no_token_without_log_witness :
    getStreamUrl [⟨"aaaaaaaaaaaaaaaaaaaaaaaa", "t", "video", "u"⟩] []
        "aaaaaaaaaaaaaaaaaaaaaaaa" "9.9.9.9" "sec" 50 false = ⟨.serverError, []⟩ :=
  (streamUrl_no_token_without_log [⟨"aaaaaaaaaaaaaaaaaaaaaaaa", "t", "video", "u"⟩] []
    "aaaaaaaaaaaaaaaaaaaaaaaa" "9.9.9.9" "sec" 50).2.1 (by decide)
    ⟨"aaaaaaaaaaaaaaaaaaaaaaaa", "t", "video", "u"⟩ (by decide)

/-- Each mutating operation preserves referential integrity of the view
log: both appending paths check asset existence before appending. -/
theorem step_preserves_LogRefsOk {s s2 : SysState} (h : Step s s2)
    (inv : LogRefsOk s) : LogRefsOk s2 := by
  cases h with
  | postMedia m htitle htype hurl =>
    intro e he
    obtain ⟨a, ha, hid⟩ := inv e he
    exact ⟨a, List.mem_append.mpr (Or.inl ha), hid⟩
  | postViewStep id ip saveOk now =>
    intro e he
    rcases postView_logs_cases s.assets s.logs s.rate id ip saveOk now with hsame | ⟨m, hm, happ⟩
    · rw [hsame] at he
      exact inv e he
    · rw [happ] at he
      rcases List.mem_append.mp he with hold | hnew
      · exact inv e hold
      · rw [List.mem_singleton] at hnew
        subst hnew
        exact ⟨m, List.mem_of_find?_eq_some hm, rfl⟩
  | getStreamUrlStep id ip secret now saveOk =>
    intro e he
    by_cases hiss : ∀ tok, (getStreamUrl s.assets s.logs id ip secret now saveOk).res ≠ .issued tok
    · rw [(getStreamUrl_spec s.assets s.logs id ip secret now saveOk).2 hiss] at he
      exact inv e he
    · push_neg at hiss
      obtain ⟨tok, htok⟩ := hiss
      obtain ⟨m, hm, hsig, hlogs⟩ :=
        (getStreamUrl_spec s.assets s.logs id ip secret now saveOk).1 tok htok
      rw [hlogs] at he
      rcases List.mem_append.mp he with hold | hnew
      · exact inv e hold
      · rw [List.mem_singleton] at hnew
        subst hnew
        exact ⟨m, List.mem_of_find?_eq_some hm, rfl⟩

/-- C6: in every reachable state of the system, every view-log entry
references an asset present in the asset store; both paths that append an
entry (view ingestion and stream-URL issuance) perform the existence
check before appending, and assets are never deleted. -/
theorem view_log_referential_integrity (s : SysState) (h : Reachable s) : LogRefsOk s := by
  induction h with
  | refl =>
    intro e he
    simp [initState] at he
  | tail hsteps hstep ih => exact step_preserves_LogRefsOk hstep ih

/-- Witness for C6: the state reached by registering one asset and then
ingesting one view satisfies the invariant. -/
theorem view_log_referential_integrity_witness :
    LogRefsOk ⟨[⟨"aaaaaaaaaaaaaaaaaaaaaaaa", "t", "video", "u"⟩],
      [⟨"aaaaaaaaaaaaaaaaaaaaaaaa", "1.2.3.4", 5⟩], [("1.2.3.4", 1)]⟩ :=
  view_log_referential_integrity _
    (Relation.ReflTransGen.tail
      (Relation.ReflTransGen.tail (Relation.ReflTransGen.refl)
        (Step.postMedia initState ⟨"aaaaaaaaaaaaaaaaaaaaaaaa", "t", "video", "u"⟩
          (by decide) (Or.inl rfl) (by decide)))
      (Step.postViewStep ⟨[⟨"aaaaaaaaaaaaaaaaaaaaaaaa", "t", "video", "u"⟩], [], []⟩
        "aaaaaaaaaaaaaaaaaaaaaaaa" "1.2.3.4" true 5))

theorem splitChars_no_space {l : List Char} (h : ' ' ∉ l) : splitChars l = [l] := by
  induction l with
  | nil => rfl
  | cons c cs ih =>
    rw [List.mem_cons] at h
    push_neg at h
    unfold splitChars
    rw [if_neg (fun hc => h.1 hc.symm), ih h.2]

theorem splitChars_append_space {l1 l2 : List Char} (h : ' ' ∉ l1) :
    splitChars (l1 ++ ' ' :: l2) = l1 :: splitChars l2 := by
  induction l1 with
  | nil =>
    rw [List.nil_append]
    simp [splitChars]
  | cons c cs ih =>
    rw [List.mem_cons] at h
    push_neg at h
    have hc : ¬c = ' ' := fun hcc => h.1 hcc.symm
    rw [List.cons_append]
    simp [splitChars, hc, ih h.2]

theorem splitSp_no_space {h : String} (hs : ' ' ∉ h.data) : splitSp h = [h] := by
  unfold splitSp
  rw [splitChars_no_space hs]
  rfl

theorem splitSp_scheme_token (scheme t : String) (hs : ' ' ∉ scheme.data)
    (ht : ' ' ∉ t.data) : splitSp (scheme ++ " " ++ t) = [scheme, t] := by
  have hdata : (scheme ++ " " ++ t).data = scheme.data ++ ' ' :: t.data := by
    rw [String.data_append, String.data_append]
    simp
  unfold splitSp
  rw [hdata, splitChars_append_space hs, splitChars_no_space ht]
  rfl

theorem extractToken_no_second_segment {h : String} (hsp : ' ' ∉ h.data) :
    extractToken (some h) = none := by
  simp only [extractToken]
  by_cases h0 : h = ""
  · rw [if_pos h0]
  · rw [if_neg h0, splitSp_no_space hsp]
    rfl

theorem extractToken_scheme_token (scheme t : String) (hs : ' ' ∉ scheme.data)
    (ht : ' ' ∉ t.data) (hne : t ≠ "") :
    extractToken (some (scheme ++ " " ++ t)) = some t := by
  have hne2 : ¬(scheme ++ " " ++ t = "") := by
    intro hcon
    have hd := congrArg String.data hcon
    rw [String.data_append, String.data_append] at hd
    simp at hd
  simp only [extractToken]
  rw [if_neg hne2, splitSp_scheme_token scheme t hs ht]
  simp [hne]

/-- C9: authentication extracts the credential solely as the second
space-separated segment of the Authorization header: a header with no
second segment (a bare token without a scheme word) is rejected as a
missing credential (401, not 403) even when the bare string itself is a
valid token, and the scheme word is never checked, so any scheme followed
by a valid session token authenticates. -/
theorem auth_scheme_unchecked (decode : String → Option SessionToken)
    (secret : String) (now : Nat) :
    (∀ h : String, ' ' ∉ h.data →
      authenticateToken decode secret now (some h) = .unauthorized) ∧
    (∀ scheme t : String, ' ' ∉ scheme.data → ' ' ∉ t.data → t ≠ "" →
      ∀ tok, decode t = some tok → tok.signedWith = secret → now < tok.exp →
        authenticateToken decode secret now (some (scheme ++ " " ++ t)) =
          .authorized tok) := by
  constructor
  · intro h hsp
    simp only [authenticateToken, extractToken_no_second_segment hsp]
  · intro scheme t hs ht hne tok hdec hsig hexp
    simp only [authenticateToken, extractToken_scheme_token scheme t hs ht hne]
    simp [hdec, jwtVerifySession, hsig, hexp]

/-- Witness for C9: a bare valid token is 401, and the Basic scheme in
front of the same token authenticates. -/
theorem auth_scheme_unchecked_witness :
    authenticateToken
      (fun s => if s = "tok" then some ⟨"u1", "e", 0, 100, "sec"⟩ else none)
      "sec" 5 (some "tok") = .unauthorized ∧
    authenticateToken
      (fun s => if s = "tok" then some ⟨"u1", "e", 0, 100, "sec"⟩ else none)
      "sec" 5 (some ("Basic" ++ " " ++ "tok")) = .authorized ⟨"u1", "e", 0, 100, "sec"⟩ :=
  ⟨(auth_scheme_unchecked
      (fun s => if s = "tok" then some ⟨"u1", "e", 0, 100, "sec"⟩ else none)
      "sec" 5).1 "tok" (by decide),
   (auth_scheme_unchecked
      (fun s => if s = "tok" then some ⟨"u1", "e", 0, 100, "sec"⟩ else none)
      "sec" 5).2 "Basic" "tok" (by decide) (by decide) (by decide)
      ⟨"u1", "e", 0, 100, "sec"⟩ (by decide) rfl (by decide)⟩

end Klantroef
